import Mathlib

/-!
Shallow embedding of `src/config/data.rs` of the sugar repository: the
configuration normalization and translation layer for a candy-machine
deployment tool.  Machine floating-point (`f64`) is modelled exactly as an
inductive over exact rationals together with IEEE-754 binary64
round-to-nearest-even; `u64` results are natural numbers bounded by
`2 ^ 64 - 1`; fallible Rust functions become `Except String` values.
-/

set_option maxRecDepth 16384

namespace Sugar

/-! ## Exact rational helpers for the binary64 model -/

/-- Floor of a rational as an integer. -/
def qfloor (q : ℚ) : ℤ := Int.fdiv q.num q.den

/-- Truncation of a rational toward zero, as Rust `as` casts do: floor of
the magnitude, with the sign restored. -/
def qtrunc (q : ℚ) : ℤ := Int.sign q.num * ((q.num.natAbs / q.den : ℕ) : ℤ)

/-- Integral power of two as a rational, for negative exponents too. -/
def qpow2 (z : ℤ) : ℚ :=
  if 0 ≤ z then ((2 ^ z.toNat : ℕ) : ℚ) else 1 / ((2 ^ (-z).toNat : ℕ) : ℚ)

/-- Round a rational to the nearest integer, ties to even. -/
def rne (q : ℚ) : ℤ :=
  if q - (qfloor q : ℚ) < 1/2 then qfloor q
  else if 1/2 < q - (qfloor q : ℚ) then qfloor q + 1
  else if qfloor q % 2 = 0 then qfloor q else qfloor q + 1

/-- Fuel-driven base-2 logarithm (floor) on naturals; structural in the
fuel so that it evaluates by kernel reduction. -/
def log2fuel : ℕ → ℕ → ℕ
  | 0, _ => 0
  | fuel + 1, n => if 2 ≤ n then log2fuel fuel (n / 2) + 1 else 0

/-- Floor of the base-2 logarithm of a natural number (0 on 0 and 1). -/
def natLog2 (n : ℕ) : ℕ := log2fuel n n

/-- Largest exponent e with 2 ^ e ≤ q, for positive q (binade of q). -/
def exp2Floor (q : ℚ) : ℤ :=
  let e0 : ℤ := (natLog2 q.num.natAbs : ℤ) - (natLog2 q.den : ℤ)
  if qpow2 (e0 + 1) ≤ q then e0 + 1
  else if qpow2 e0 ≤ q then e0
  else e0 - 1

/-- Exponent of the unit in the last place at magnitude q: 52 bits below
the binade of a normal number, the fixed subnormal granularity below the
normal range. -/
def ulpExp (q : ℚ) : ℤ :=
  if exp2Floor |q| ≤ -1023 then -1074 else exp2Floor |q| - 52

/-- Round an exact rational to the nearest IEEE-754 binary64 value
(round to nearest, ties to even), with unbounded exponent range above and
subnormal granularity below; overflow to infinity is decided by the caller. -/
def froundQ (q : ℚ) : ℚ :=
  if q = 0 then 0
  else (if q < 0 then -1 else 1) *
    (rne (|q| / qpow2 (ulpExp q)) : ℚ) * qpow2 (ulpExp q)

/-- Model of an `f64` value: NaN, signed infinity, or an exact finite
rational (which the operations below keep representable). -/
inductive F64 where
  | nan : F64
  | inf : Bool → F64
  | finite : ℚ → F64
deriving DecidableEq, Repr

/-- Overflow threshold of binary64, written out in digits so that it
evaluates without large exponentiations; equals 2 ^ 1024, see
OVERFLOW_BOUND_eq. -/
def OVERFLOW_BOUND : ℕ := 179769313486231590772930519078902473361797697894230657273430081157732675805500963132708477322407536021120113879871393357658789768814416622492847430639474124377767893424865485276302219601246094119453082952085005768838150682342462881473913110540827237163350510684586298239947245938479716304835356329624224137216

/-- Multiplication of an `f64` by a positive, exactly representable rational
constant, rounding the exact product back to binary64 and overflowing to
infinity at magnitude 2 ^ 1024, as IEEE-754 multiplication does. -/
def f64MulPos (x : F64) (c : ℚ) : F64 :=
  match x with
  | .nan => .nan
  | .inf s => .inf s
  | .finite q =>
      if (OVERFLOW_BOUND : ℚ) ≤ |froundQ (q * c)| then
        .inf (decide (froundQ (q * c) < 0))
      else .finite (froundQ (q * c))

/-- Largest value of the Rust `u64` type. -/
def U64MAX : ℕ := 2 ^ 64 - 1

/-- Rust `as u64` cast from `f64`: saturating, truncating toward zero,
NaN to zero (Rust ≥ 1.45 semantics). -/
def f64_as_u64 : F64 → ℕ
  | .nan => 0
  | .inf s => if s then 0 else U64MAX
  | .finite q =>
      if qtrunc q < 0 then 0 else min (qtrunc q).toNat U64MAX

/-- Constant `LAMPORTS_PER_SOL` from the Solana SDK. -/
def LAMPORTS_PER_SOL : ℕ := 1000000000

/-- Embeds `pub fn price_as_lamports(price: f64) -> u64`:
`(price * LAMPORTS_PER_SOL as f64) as u64`. -/
def price_as_lamports (price : F64) : ℕ :=
  f64_as_u64 (f64MulPos price (LAMPORTS_PER_SOL : ℚ))

/-- Embeds `fn discount_price_to_lamports(discount_price: Option<f64>) -> Option<u64>`:
present values go through the same multiply-and-cast as the price, absent
stays absent. -/
def discount_price_to_lamports (discount_price : Option F64) : Option ℕ :=
  match discount_price with
  | some dp => some (f64_as_u64 (f64MulPos dp (LAMPORTS_PER_SOL : ℚ)))
  | none => none

/-! ## Addresses: base-58 decoding and `Pubkey::from_str` -/

/-- Alphabet of the bs58 crate (Bitcoin alphabet). -/
def b58Alphabet : List Char :=
  "123456789ABCDEFGHJKLMNPQRSTUVWXYZabcdefghijkmnopqrstuvwxyz".toList

/-- Value of one base-58 digit, none for a character outside the alphabet. -/
def b58Digit (c : Char) : Option ℕ :=
  let i := b58Alphabet.indexOf c
  if i < 58 then some i else none

/-- Fuel-driven big-endian byte expansion; structural in the fuel so that
it evaluates by kernel reduction. -/
def bytesBEfuel : ℕ → ℕ → List ℕ
  | 0, _ => []
  | fuel + 1, n => if n = 0 then [] else bytesBEfuel fuel (n / 256) ++ [n % 256]

/-- Minimal big-endian byte representation of a natural number. -/
def natToBytesBE (n : ℕ) : List ℕ := bytesBEfuel n n

/-- Accumulate base-58 digits into a natural number; fails on a character
outside the alphabet. -/
def b58Acc : List Char → ℕ → Option ℕ
  | [], acc => some acc
  | c :: cs, acc =>
      match b58Digit c with
      | some d => b58Acc cs (acc * 58 + d)
      | none => none

/-- Decode of the bs58 crate: leading `1` characters become leading zero
bytes, the rest is the big-endian byte expansion of the base-58 value. -/
def bs58Decode (s : String) : Option (List ℕ) :=
  let cs := s.toList
  match b58Acc cs 0 with
  | none => none
  | some n => some (List.replicate (cs.takeWhile (fun c => c = '1')).length 0
      ++ natToBytesBE n)

/-- Model of a Solana public key: its 32 raw bytes. -/
structure Pubkey where
  bytes : List ℕ
deriving DecidableEq, Repr

/-- Embeds `Pubkey::from_str`: reject strings longer than the maximal
base-58 length 44, then base-58 decode, then require exactly 32 bytes. -/
def pubkeyFromStr (s : String) : Except String Pubkey :=
  if s.length > 44 then .error "WrongSize"
  else
    match bs58Decode s with
    | none => .error "Invalid Base58 character"
    | some bytes => if bytes.length = 32 then .ok ⟨bytes⟩ else .error "WrongSize"

/-! ## Generic document tree (the external deserializer's output) -/

/-- Structured document value, as serde_json presents it to the derived
deserializers. -/
inductive Json where
  | null : Json
  | bool : Bool → Json
  | num : ℚ → Json
  | str : String → Json
  | arr : List Json → Json
  | obj : List (String × Json) → Json
deriving Repr

/-- Deserializing a Rust `String` from a document value: only a string
succeeds, anything else is a type error. -/
def parseString : Json → Except String String
  | .str s => .ok s
  | _ => .error "invalid type: expected a string"

/-- Deserializing a Rust `bool` from a document value. -/
def parseBool : Json → Except String Bool
  | .bool b => .ok b
  | _ => .error "invalid type: expected a boolean"

/-- Deserializing a Rust `u64` from a document value: an integral number
within the unsigned 64-bit range. -/
def parseU64 : Json → Except String ℕ
  | .num q =>
      if q.den = 1 ∧ 0 ≤ q.num ∧ q.num < 2 ^ 64 then .ok q.num.toNat
      else .error "invalid type: expected u64"
  | _ => .error "invalid type: expected u64"

/-- Deserializing a Rust `f64` from a document value: any number, rounded
to the nearest binary64. -/
def parseF64 : Json → Except String F64
  | .num q => .ok (.finite (froundQ q))
  | _ => .error "invalid type: expected f64"

/-- Deserializing one byte (u8). -/
def parseU8 : Json → Except String ℕ
  | .num q =>
      if q.den = 1 ∧ 0 ≤ q.num ∧ q.num < 256 then .ok q.num.toNat
      else .error "invalid type: expected u8"
  | _ => .error "invalid type: expected u8"

/-- Deserializing a list elementwise. -/
def parseListWith (p : Json → Except String α) : List Json → Except String (List α)
  | [] => .ok []
  | j :: js => do
      let x ← p j
      let xs ← parseListWith p js
      .ok (x :: xs)

/-- Deserializing the derived `Pubkey` representation: a sequence of exactly
32 bytes (the Solana SDK derives serde on the raw byte array). -/
def parsePubkeyDerived : Json → Except String Pubkey
  | .arr js => do
      let bs ← parseListWith parseU8 js
      if bs.length = 32 then .ok ⟨bs⟩
      else .error "invalid length, expected 32 bytes"
  | _ => .error "invalid type: expected a byte array"

/-- Deserializing a fixed 32-byte array (`[u8; 32]`). -/
def parseHash32 : Json → Except String (List ℕ)
  | .arr js => do
      let bs ← parseListWith parseU8 js
      if bs.length = 32 then .ok bs
      else .error "invalid length, expected an array of 32 bytes"
  | _ => .error "invalid type: expected a byte array"

/-- Optional-value deserialization as serde derives it: document null is
absence, anything else runs the inner deserializer. -/
def parseOpt (p : Json → Except String α) : Json → Except String (Option α)
  | .null => .ok none
  | j => (p j).map some

/-- Field access in a document map with serde's duplicate-field detection:
absent yields none, one occurrence yields the value, two occurrences of a
known field are an error. -/
def lookupField (fs : List (String × Json)) (k : String) :
    Except String (Option Json) :=
  match fs.filter (fun p => p.1 = k) with
  | [] => .ok none
  | [p] => .ok (some p.2)
  | _ => .error ("duplicate field " ++ k)

/-- Required field: absent is the serde missing-field error. -/
def requireField (fs : List (String × Json)) (k : String)
    (p : Json → Except String α) : Except String α := do
  match ← lookupField fs k with
  | some j => p j
  | none => .error ("missing field " ++ k)

/-- Optional field of type `Option<T>` without deserialize_with: absent or
null is none, otherwise the inner deserializer runs. -/
def optionalField (fs : List (String × Json)) (k : String)
    (p : Json → Except String α) : Except String (Option α) := do
  match ← lookupField fs k with
  | some j => parseOpt p j
  | none => .ok none

/-- Embeds `fn to_pubkey`: deserialize a string, then decode it, and
propagate either failure. -/
def to_pubkey (j : Json) : Except String Pubkey := do
  let s ← parseString j
  pubkeyFromStr s

/-- Embeds `fn to_option_pubkey`: a failure to deserialize the string is
absence; a string that fails `Pubkey::from_str` propagates the error. -/
def to_option_pubkey (j : Json) : Except String (Option Pubkey) :=
  match parseString j with
  | .error _ => .ok none
  | .ok s => (pubkeyFromStr s).map some

/-! ## Leaf value objects and their external (candy-machine) counterparts -/

/-- External-schema gatekeeper settings from the mpl_candy_machine crate. -/
structure CandyGatekeeperConfig where
  gatekeeper_network : Pubkey
  expire_on_use : Bool
deriving DecidableEq, Repr

/-- Embeds `pub struct GatekeeperConfig`. -/
structure GatekeeperConfig where
  gatekeeper_network : Pubkey
  expire_on_use : Bool
deriving DecidableEq, Repr

/-- Embeds `GatekeeperConfig::into_candy_format`. -/
def GatekeeperConfig.into_candy_format (self : GatekeeperConfig) :
    CandyGatekeeperConfig :=
  { gatekeeper_network := self.gatekeeper_network
    expire_on_use := self.expire_on_use }

/-- Derived serde deserialization of `GatekeeperConfig`: field names are the
Rust snake_case identifiers (no rename attribute on this struct). -/
def GatekeeperConfig.deserialize : Json → Except String GatekeeperConfig
  | .obj fs => do
      let n ← requireField fs "gatekeeper_network" parsePubkeyDerived
      let e ← requireField fs "expire_on_use" parseBool
      .ok ⟨n, e⟩
  | _ => .error "invalid type: expected a map"

/-- External-schema end-setting tag. -/
inductive CandyEndSettingType where
  | Date : CandyEndSettingType
  | Amount : CandyEndSettingType
deriving DecidableEq, Repr

/-- External-schema end settings. -/
structure CandyEndSettings where
  end_setting_type : CandyEndSettingType
  number : ℕ
deriving DecidableEq, Repr

/-- Embeds `pub enum EndSettingType`. -/
inductive EndSettingType where
  | Date : EndSettingType
  | Amount : EndSettingType
deriving DecidableEq, Repr

/-- Derived serde deserialization of `EndSettingType`: exact variant names,
no rename attribute. -/
def EndSettingType.deserialize : Json → Except String EndSettingType
  | .str "Date" => .ok .Date
  | .str "Amount" => .ok .Amount
  | .str s => .error ("unknown variant " ++ s)
  | _ => .error "invalid type: expected a string"

/-- Embeds `pub struct EndSettings`. -/
structure EndSettings where
  end_setting_type : EndSettingType
  number : ℕ
deriving DecidableEq, Repr

/-- Embeds `EndSettings::into_candy_format`: maps the tag variantwise and
copies the threshold verbatim. -/
def EndSettings.into_candy_format (self : EndSettings) : CandyEndSettings :=
  { end_setting_type :=
      match self.end_setting_type with
      | EndSettingType.Date => CandyEndSettingType.Date
      | EndSettingType.Amount => CandyEndSettingType.Amount
    number := self.number }

/-- Derived serde deserialization of `EndSettings`: snake_case field names. -/
def EndSettings.deserialize : Json → Except String EndSettings
  | .obj fs => do
      let t ← requireField fs "end_setting_type" EndSettingType.deserialize
      let n ← requireField fs "number" parseU64
      .ok ⟨t, n⟩
  | _ => .error "invalid type: expected a map"

/-- External-schema whitelist mint mode. -/
inductive CandyWhitelistMintMode where
  | BurnEveryTime : CandyWhitelistMintMode
  | NeverBurn : CandyWhitelistMintMode
deriving DecidableEq, Repr

/-- External-schema whitelist settings. -/
structure CandyWhitelistMintSettings where
  mode : CandyWhitelistMintMode
  mint : Pubkey
  presale : Bool
  discount_price : Option ℕ
deriving DecidableEq, Repr

/-- Embeds `pub enum WhitelistMintMode`. -/
inductive WhitelistMintMode where
  | BurnEveryTime : WhitelistMintMode
  | NeverBurn : WhitelistMintMode
deriving DecidableEq, Repr

/-- Embeds `WhitelistMintMode::into_candy_format`. -/
def WhitelistMintMode.into_candy_format : WhitelistMintMode →
    CandyWhitelistMintMode
  | .BurnEveryTime => .BurnEveryTime
  | .NeverBurn => .NeverBurn

/-- Lower-casing of one ASCII character, as `str::to_lowercase` acts on the
ASCII tokens this configuration uses. -/
def asciiLowerChar (c : Char) : Char :=
  if 'A' ≤ c ∧ c ≤ 'Z' then Char.ofNat (c.toNat + 32) else c

/-- Lower-casing of a string, characterwise. -/
def asciiLower (s : String) : String := String.mk (s.toList.map asciiLowerChar)

/-- Embeds `impl FromStr for WhitelistMintMode`: lower-case, then exact
token match; the error message carries the offending string. -/
def WhitelistMintMode.from_str (s : String) : Except String WhitelistMintMode :=
  if asciiLower s = "burneverytime" then .ok .BurnEveryTime
  else if asciiLower s = "neverburn" then .ok .NeverBurn
  else .error ("Invalid whitelist mint mode: " ++ s)

/-- Derived serde deserialization of `WhitelistMintMode` with the camelCase
rename attribute: exact (case-sensitive) tokens burnEveryTime, neverBurn. -/
def WhitelistMintMode.deserialize : Json → Except String WhitelistMintMode
  | .str "burnEveryTime" => .ok .BurnEveryTime
  | .str "neverBurn" => .ok .NeverBurn
  | .str s => .error ("unknown variant " ++ s)
  | _ => .error "invalid type: expected a string"

/-- Embeds `pub struct WhitelistMintSettings`. -/
structure WhitelistMintSettings where
  mode : WhitelistMintMode
  mint : Pubkey
  presale : Bool
  discount_price : Option F64
deriving DecidableEq, Repr

/-- Embeds `WhitelistMintSettings::into_candy_format`. -/
def WhitelistMintSettings.into_candy_format (self : WhitelistMintSettings) :
    CandyWhitelistMintSettings :=
  { mode := self.mode.into_candy_format
    mint := self.mint
    presale := self.presale
    discount_price := discount_price_to_lamports self.discount_price }

/-- Derived serde deserialization of `WhitelistMintSettings`: the mint goes
through `to_pubkey`, the discount price is an optional number renamed to
discountPrice. -/
def WhitelistMintSettings.deserialize : Json → Except String WhitelistMintSettings
  | .obj fs => do
      let m ← requireField fs "mode" WhitelistMintMode.deserialize
      let k ← requireField fs "mint" to_pubkey
      let p ← requireField fs "presale" parseBool
      let d ← optionalField fs "discountPrice" parseF64
      .ok ⟨m, k, p, d⟩
  | _ => .error "invalid type: expected a map"

/-- External-schema hidden settings. -/
structure CandyHiddenSettings where
  name : String
  uri : String
  hash : List ℕ
deriving DecidableEq, Repr

/-- Embeds `pub struct HiddenSettings` (hash is a fixed 32-byte array). -/
structure HiddenSettings where
  name : String
  uri : String
  hash : List ℕ
deriving DecidableEq, Repr

/-- Embeds `HiddenSettings::into_candy_format`: clones all three fields. -/
def HiddenSettings.into_candy_format (self : HiddenSettings) :
    CandyHiddenSettings :=
  { name := self.name
    uri := self.uri
    hash := self.hash }

/-- Derived serde deserialization of `HiddenSettings`. -/
def HiddenSettings.deserialize : Json → Except String HiddenSettings
  | .obj fs => do
      let n ← requireField fs "name" parseString
      let u ← requireField fs "uri" parseString
      let h ← requireField fs "hash" parseHash32
      .ok ⟨n, u, h⟩
  | _ => .error "invalid type: expected a map"

/-- Embeds `pub enum UploadMethod`. -/
inductive UploadMethod where
  | Metaplex : UploadMethod
  | Bundlr : UploadMethod
  | Arloader : UploadMethod
deriving DecidableEq, Repr

/-- Embeds `impl FromStr for UploadMethod`: lower-case, then exact token
match; the error message carries the offending string. -/
def UploadMethod.from_str (s : String) : Except String UploadMethod :=
  if asciiLower s = "metaplex" then .ok .Metaplex
  else if asciiLower s = "bundlr" then .ok .Bundlr
  else if asciiLower s = "arloader" then .ok .Arloader
  else .error ("Unknown storage: " ++ s)

/-- Embeds the manual `impl Deserialize for UploadMethod`: deserialize a
string and run FromStr, propagating its error. -/
def UploadMethod.deserialize (j : Json) : Except String UploadMethod := do
  let s ← parseString j
  UploadMethod.from_str s

/-! ## Aggregate configuration -/

/-- Embeds `pub struct ConfigData`. -/
structure ConfigData where
  price : F64
  number : ℕ
  gatekeeper : Option GatekeeperConfig
  sol_treasury_account : Pubkey
  spl_token_account : Option Pubkey
  spl_token : Option Pubkey
  go_live_date : String
  end_settings : Option EndSettings
  whitelist_mint_settings : Option WhitelistMintSettings
  hidden_settings : Option HiddenSettings
  upload_method : UploadMethod
  retain_authority : Bool
  is_mutable : Bool
deriving DecidableEq, Repr

/-- Derived serde deserialization of `ConfigData`: top-level keys carry the
camelCase renames from the source; the two spl token fields use
`to_option_pubkey` (and, having deserialize_with, their keys must be
present); plain Option fields default to absence when their key is
missing. -/
def ConfigData.deserialize : Json → Except String ConfigData
  | .obj fs => do
      let price ← requireField fs "price" parseF64
      let number ← requireField fs "number" parseU64
      let gk ← optionalField fs "gatekeeper" GatekeeperConfig.deserialize
      let treasury ← requireField fs "solTreasuryAccount" to_pubkey
      let sta ← requireField fs "splTokenAccount" to_option_pubkey
      let st ← requireField fs "splToken" to_option_pubkey
      let gld ← requireField fs "goLiveDate" parseString
      let es ← optionalField fs "endSettings" EndSettings.deserialize
      let wl ← optionalField fs "whitelistMintSettings" WhitelistMintSettings.deserialize
      let hs ← optionalField fs "hiddenSettings" HiddenSettings.deserialize
      let um ← requireField fs "uploadMethod" UploadMethod.deserialize
      let ra ← requireField fs "retainAuthority" parseBool
      let im ← requireField fs "isMutable" parseBool
      .ok ⟨price, number, gk, treasury, sta, st, gld, es, wl, hs, um, ra, im⟩
  | _ => .error "invalid type: expected a map"

/-! ## RFC 3339 timestamps (chrono's parse_from_rfc3339 plus timestamp()) -/

/-- Scan exactly n ASCII digits into a number, returning the rest. -/
def scanNum : ℕ → ℕ → List Char → Option (ℕ × List Char)
  | 0, acc, cs => some (acc, cs)
  | n + 1, acc, c :: cs =>
      if c.isDigit then scanNum n (acc * 10 + (c.toNat - 48)) cs else none
  | _ + 1, _, [] => none

/-- Scan one expected character. -/
def scanChar (ch : Char) : List Char → Option (List Char)
  | c :: cs => if c = ch then some cs else none
  | [] => none

/-- Scan an optional fractional-second part: a dot must be followed by at
least one digit; the digits are consumed (their value does not affect the
whole-second timestamp). -/
def scanFrac : List Char → Option (List Char)
  | '.' :: c :: cs => if c.isDigit then some (cs.dropWhile Char.isDigit) else none
  | '.' :: [] => none
  | cs => some cs

/-- Scan the timezone designator: Z or z for UTC, or a signed hh:mm offset
in seconds. -/
def scanOffset : List Char → Option (ℤ × List Char)
  | c :: cs =>
      if c = 'Z' ∨ c = 'z' then some (0, cs)
      else if c = '+' ∨ c = '-' then do
        let (h, cs) ← scanNum 2 0 cs
        let cs ← scanChar ':' cs
        let (m, cs) ← scanNum 2 0 cs
        let mag : ℤ := h * 3600 + m * 60
        some (if c = '-' then -mag else mag, cs)
      else none
  | [] => none

/-- Proleptic-Gregorian leap-year test. -/
def isLeap (y : ℕ) : Bool := y % 4 = 0 ∧ (y % 100 ≠ 0 ∨ y % 400 = 0)

/-- Length of a month in the given year. -/
def daysInMonth (y m : ℕ) : ℕ :=
  if m = 2 then (if isLeap y then 29 else 28)
  else if m = 4 ∨ m = 6 ∨ m = 9 ∨ m = 11 then 30
  else 31

/-- Days from 1970-01-01 to the given proleptic-Gregorian civil date. -/
def daysFromCivil (y m d : ℤ) : ℤ :=
  let y' := if m ≤ 2 then y - 1 else y
  let era := (if 0 ≤ y' then y' else y' - 399) / 400
  let yoe := y' - era * 400
  let mp := (m + 9) % 12
  let doy := (153 * mp + 2) / 5 + d - 1
  let doe := yoe * 365 + yoe / 4 - yoe / 100 + doy
  era * 146097 + doe - 719468

/-- Scan the date-time separator, T or t as chrono accepts it. -/
def scanSep : List Char → Option (List Char)
  | 'T' :: rest => some rest
  | 't' :: rest => some rest
  | _ => none

/-- Combination of the validated time-of-day fields and the offset into
epoch seconds, once the full date is known; a leap second 60 counts as
second 59 in the epoch count, as chrono represents it. -/
def epochOf (y mo d h mi sec : ℕ) (off : ℤ) (rest : List Char) : Option ℤ :=
  if rest = [] ∧ 1 ≤ mo ∧ mo ≤ 12 ∧ 1 ≤ d ∧ d ≤ daysInMonth y mo ∧
      h ≤ 23 ∧ mi ≤ 59 ∧ sec ≤ 60 ∧ -86400 < off ∧ off < 86400 then
    some (daysFromCivil y mo d * 86400 + h * 3600 + mi * 60 + min sec 59 - off)
  else none

/-- Strict RFC 3339 date-time parse to epoch seconds: full date, T or t
separator, full time with optional fraction, then a mandatory timezone
designator, and nothing after it; field ranges are validated. Absence is
any parse or range failure. -/
def rfc3339ToEpoch (cs : List Char) : Option ℤ :=
  match scanNum 4 0 cs with
  | none => none
  | some (y, cs) =>
  match scanChar '-' cs with
  | none => none
  | some cs =>
  match scanNum 2 0 cs with
  | none => none
  | some (mo, cs) =>
  match scanChar '-' cs with
  | none => none
  | some cs =>
  match scanNum 2 0 cs with
  | none => none
  | some (d, cs) =>
  match scanSep cs with
  | none => none
  | some cs =>
  match scanNum 2 0 cs with
  | none => none
  | some (h, cs) =>
  match scanChar ':' cs with
  | none => none
  | some cs =>
  match scanNum 2 0 cs with
  | none => none
  | some (mi, cs) =>
  match scanChar ':' cs with
  | none => none
  | some cs =>
  match scanNum 2 0 cs with
  | none => none
  | some (sec, cs) =>
  match scanFrac cs with
  | none => none
  | some cs =>
  match scanOffset cs with
  | none => none
  | some (off, cs) => epochOf y mo d h mi sec off cs

/-- Embeds `pub fn go_live_date_as_timestamp(go_live_date: &str) -> Result<i64>`:
`chrono::DateTime::parse_from_rfc3339` followed by `timestamp()`, with any
parse failure propagated as an error. -/
def go_live_date_as_timestamp (go_live_date : String) : Except String ℤ :=
  match rfc3339ToEpoch go_live_date.toList with
  | some t => .ok t
  | none => .error "input is not a valid RFC 3339 date-time"

/-- Success test on a fallible result. -/
def exceptIsOk : Except String α → Bool
  | .ok _ => true
  | .error _ => false

/-! ## Arithmetic facts about the binary64 model -/

theorem OVERFLOW_BOUND_eq : OVERFLOW_BOUND = 2 ^ 1024 := by
  norm_num [OVERFLOW_BOUND]

theorem qpow2_pos (z : ℤ) : 0 < qpow2 z := by
  unfold qpow2
  split <;> positivity

theorem rne_nonneg {q : ℚ} (h : 0 ≤ q) : 0 ≤ rne q := by
  have hnum : 0 ≤ q.num := Rat.num_nonneg.mpr h
  have hf : 0 ≤ qfloor q := Int.fdiv_nonneg hnum (Int.ofNat_nonneg q.den)
  unfold rne
  split
  · exact hf
  · split
    · omega
    · split <;> omega

theorem qfloor_le (q : ℚ) : (qfloor q : ℚ) ≤ q := by
  have hden : (0 : ℚ) < (q.den : ℚ) := by exact_mod_cast q.pos
  have hmul : (qfloor q) * (q.den : ℤ) ≤ q.num := by
    have hdm := Int.fdiv_add_fmod q.num (q.den : ℤ)
    have hm : 0 ≤ Int.fmod q.num (q.den : ℤ) :=
      Int.fmod_nonneg' q.num (by exact_mod_cast q.pos)
    unfold qfloor
    linarith [hdm, hm]
  have hcast : ((qfloor q : ℚ)) * (q.den : ℚ) ≤ (q.num : ℚ) := by
    exact_mod_cast hmul
  have hle : (qfloor q : ℚ) ≤ (q.num : ℚ) / (q.den : ℚ) :=
    (le_div_iff₀ hden).mpr hcast
  calc (qfloor q : ℚ) ≤ (q.num : ℚ) / (q.den : ℚ) := hle
    _ = q := q.num_div_den

theorem rne_nonpos {q : ℚ} (h : q ≤ 0) : rne q ≤ 0 := by
  have hf : (qfloor q : ℚ) ≤ q := qfloor_le q
  have hf0 : qfloor q ≤ 0 := by
    have hq : (qfloor q : ℚ) ≤ 0 := le_trans hf h
    exact_mod_cast hq
  unfold rne
  split
  · exact hf0
  · rename_i h1
    push_neg at h1
    have hneg : qfloor q < 0 := by
      have h2 : (qfloor q : ℚ) ≤ q - 1/2 := by linarith
      have h3 : (qfloor q : ℚ) < 0 := by linarith
      exact_mod_cast h3
    split
    · omega
    · split <;> omega

theorem froundQ_nonneg {q : ℚ} (h : 0 ≤ q) : 0 ≤ froundQ q := by
  unfold froundQ
  split
  · exact le_refl 0
  · rename_i hne
    have hnlt : ¬ q < 0 := not_lt.mpr h
    rw [if_neg hnlt]
    have hu : 0 < qpow2 (ulpExp q) := qpow2_pos _
    have hm : 0 ≤ rne (|q| / qpow2 (ulpExp q)) :=
      rne_nonneg (div_nonneg (abs_nonneg q) hu.le)
    have hmq : (0 : ℚ) ≤ (rne (|q| / qpow2 (ulpExp q)) : ℚ) := by exact_mod_cast hm
    nlinarith

theorem froundQ_nonpos {q : ℚ} (h : q ≤ 0) : froundQ q ≤ 0 := by
  unfold froundQ
  split
  · exact le_refl 0
  · rename_i hne
    have hlt : q < 0 := lt_of_le_of_ne h hne
    rw [if_pos hlt]
    have hu : 0 < qpow2 (ulpExp q) := qpow2_pos _
    have hm : 0 ≤ rne (|q| / qpow2 (ulpExp q)) :=
      rne_nonneg (div_nonneg (abs_nonneg q) hu.le)
    have hmq : (0 : ℚ) ≤ (rne (|q| / qpow2 (ulpExp q)) : ℚ) := by exact_mod_cast hm
    nlinarith

theorem qtrunc_nonneg {q : ℚ} (h : 0 ≤ q) : 0 ≤ qtrunc q := by
  have hnum : 0 ≤ q.num := Rat.num_nonneg.mpr h
  have hsgn : 0 ≤ Int.sign q.num := Int.sign_nonneg.mpr hnum
  have hdiv : (0 : ℤ) ≤ ((q.num.natAbs / q.den : ℕ) : ℤ) := Int.ofNat_nonneg _
  unfold qtrunc
  exact mul_nonneg hsgn hdiv

theorem qtrunc_nonpos {q : ℚ} (h : q ≤ 0) : qtrunc q ≤ 0 := by
  have hnum : q.num ≤ 0 := Rat.num_nonpos.mpr h
  have hdiv : (0 : ℤ) ≤ ((q.num.natAbs / q.den : ℕ) : ℤ) := Int.ofNat_nonneg _
  unfold qtrunc
  rcases lt_or_eq_of_le hnum with hlt | heq
  · rw [Int.sign_eq_neg_one_of_neg hlt]
    linarith
  · rw [heq]
    simp

theorem natAbs_cast_rat {q : ℚ} (h : 0 ≤ q.num) :
    ((q.num.natAbs : ℕ) : ℚ) = (q.num : ℚ) :=
  calc ((q.num.natAbs : ℕ) : ℚ) = (((q.num.natAbs : ℕ) : ℤ) : ℚ) := by
        rw [Int.cast_natCast]
    _ = (q.num : ℚ) := by rw [Int.natAbs_of_nonneg h]

theorem qtrunc_le {q : ℚ} (h : 0 ≤ q) : (qtrunc q : ℚ) ≤ q := by
  have hnum : 0 ≤ q.num := Rat.num_nonneg.mpr h
  have hden : (0 : ℚ) < (q.den : ℚ) := by exact_mod_cast q.pos
  rcases lt_or_eq_of_le hnum with hlt | heq
  · unfold qtrunc
    rw [Int.sign_eq_one_of_pos hlt, one_mul]
    have hdivle : ((q.num.natAbs / q.den : ℕ) : ℚ) * (q.den : ℚ) ≤ (q.num : ℚ) := by
      have hnd : (((q.num.natAbs / q.den) * q.den : ℕ) : ℚ) ≤
          ((q.num.natAbs : ℕ) : ℚ) := by
        exact_mod_cast Nat.div_mul_le_self q.num.natAbs q.den
      rw [natAbs_cast_rat hnum] at hnd
      push_cast at hnd
      linarith
    have hle : ((q.num.natAbs / q.den : ℕ) : ℚ) ≤ (q.num : ℚ) / (q.den : ℚ) :=
      (le_div_iff₀ hden).mpr hdivle
    rw [Int.cast_natCast]
    calc ((q.num.natAbs / q.den : ℕ) : ℚ)
        ≤ (q.num : ℚ) / (q.den : ℚ) := hle
      _ = q := q.num_div_den
  · have hq0 : q = 0 := by
      rw [← Rat.num_div_den q, ← heq]
      simp
    subst hq0
    simp [qtrunc, qfloor]

theorem qtrunc_ge {q : ℚ} {n : ℕ} (h : (n : ℚ) ≤ q) : (n : ℤ) ≤ qtrunc q := by
  rcases Nat.eq_zero_or_pos n with h0 | hpos
  · subst h0
    simpa using qtrunc_nonneg (le_trans (by norm_num) h)
  · have hq : (0 : ℚ) < q := by
      have hn : (0 : ℚ) < (n : ℚ) := by exact_mod_cast hpos
      linarith
    have hnum : 0 < q.num := Rat.num_pos.mpr hq
    have hden : (0 : ℚ) < (q.den : ℚ) := by exact_mod_cast q.pos
    unfold qtrunc
    rw [Int.sign_eq_one_of_pos hnum, one_mul]
    have hmul : (n : ℚ) * (q.den : ℚ) ≤ (q.num : ℚ) := by
      have hq' : (n : ℚ) ≤ (q.num : ℚ) / (q.den : ℚ) := by
        rw [q.num_div_den]; exact h
      exact (le_div_iff₀ hden).mp hq'
    have hmuln : n * q.den ≤ q.num.natAbs := by
      have hcast : ((n * q.den : ℕ) : ℚ) ≤ ((q.num.natAbs : ℕ) : ℚ) := by
        rw [natAbs_cast_rat hnum.le]
        push_cast
        linarith
      exact_mod_cast hcast
    have hdiv : n ≤ q.num.natAbs / q.den :=
      (Nat.le_div_iff_mul_le q.pos).mpr hmuln
    exact_mod_cast hdiv

theorem qtrunc_lt {q : ℚ} {n : ℕ} (h0 : 0 ≤ q) (h : q < (n : ℚ)) :
    qtrunc q < (n : ℤ) := by
  have h1 : (qtrunc q : ℚ) < (n : ℚ) := lt_of_le_of_lt (qtrunc_le h0) h
  exact_mod_cast h1

theorem f64_as_u64_le (x : F64) : f64_as_u64 x ≤ U64MAX := by
  cases x with
  | nan => exact Nat.zero_le _
  | inf s =>
      cases s
      · exact le_refl _
      · exact Nat.zero_le _
  | finite q =>
      simp only [f64_as_u64]
      split
      · exact Nat.zero_le _
      · exact Nat.min_le_right _ _

/-! ## Claims -/

/-- Claim C1 counterexample: at both concrete inputs singled out by the
claim, the optional-address codec propagates a decode error instead of
yielding absence. -/
theorem C1_counterexample :
    to_option_pubkey (Json.str "not-a-valid-address") =
      .error "Invalid Base58 character" ∧
    to_option_pubkey (Json.str "") = .error "WrongSize" := ⟨rfl, rfl⟩

/-- Claim C1, corrected: the optional-address codec yields absence exactly
when the document value fails to deserialize as a string (wrong document
type or missing value); a string that is present but fails address
decoding propagates the decode error, so parseOptionalAddress on "" and
on "not-a-valid-address" both yield errors, not absence. -/
theorem C1_to_option_pubkey_amended :
    (∀ j : Json, (∀ s, j ≠ Json.str s) → to_option_pubkey j = .ok none) ∧
    (∀ s : String, to_option_pubkey (Json.str s) = (pubkeyFromStr s).map some) ∧
    to_option_pubkey (Json.str "") = .error "WrongSize" ∧
    to_option_pubkey (Json.str "not-a-valid-address") =
      .error "Invalid Base58 character" := by
  refine ⟨?_, fun s => rfl, rfl, rfl⟩
  intro j hj
  cases j with
  | str s => exact absurd rfl (hj s)
  | null => rfl
  | bool b => rfl
  | num q => rfl
  | arr xs => rfl
  | obj fs => rfl

/-- Claim C1 witness: a non-string document value yields absence. -/
theorem C1_witness : to_option_pubkey Json.null = .ok none :=
  C1_to_option_pubkey_amended.1 Json.null (fun _ h => Json.noConfusion h)

/-- Claim C2 counterexample: document parsing of WhitelistPolicy.mode goes
through the serde-derived deserializer, which is case-sensitive, so the
recognized token in upper case is rejected rather than parsed. -/
theorem C2_counterexample :
    WhitelistMintMode.deserialize (Json.str "BURNEVERYTIME") =
      .error "unknown variant BURNEVERYTIME" := rfl

/-- Claim C2, corrected: UploadMethod document parsing is case-insensitive
(exact token match after lower-casing) and unmatched tokens fail with an
error carrying the offending string; WhitelistMintMode has a FromStr
parser with the same case-insensitive behavior and error shape, but
document parsing of WhitelistPolicy.mode uses the serde-derived
deserializer, which accepts exactly the camelCase tokens burnEveryTime and
neverBurn, case-sensitively. -/
theorem C2_enum_parsing_amended :
    (∀ s, asciiLower s = "metaplex" →
      UploadMethod.from_str s = .ok UploadMethod.Metaplex) ∧
    (∀ s, asciiLower s = "bundlr" →
      UploadMethod.from_str s = .ok UploadMethod.Bundlr) ∧
    (∀ s, asciiLower s = "arloader" →
      UploadMethod.from_str s = .ok UploadMethod.Arloader) ∧
    (∀ s, asciiLower s ≠ "metaplex" → asciiLower s ≠ "bundlr" →
      asciiLower s ≠ "arloader" →
      UploadMethod.from_str s = .error ("Unknown storage: " ++ s)) ∧
    UploadMethod.deserialize (Json.str "BUNDLR") = .ok UploadMethod.Bundlr ∧
    UploadMethod.deserialize (Json.str "dropbox") =
      .error "Unknown storage: dropbox" ∧
    (∀ s, asciiLower s = "burneverytime" →
      WhitelistMintMode.from_str s = .ok WhitelistMintMode.BurnEveryTime) ∧
    (∀ s, asciiLower s = "neverburn" →
      WhitelistMintMode.from_str s = .ok WhitelistMintMode.NeverBurn) ∧
    (∀ s, asciiLower s ≠ "burneverytime" → asciiLower s ≠ "neverburn" →
      WhitelistMintMode.from_str s =
        .error ("Invalid whitelist mint mode: " ++ s)) ∧
    WhitelistMintMode.deserialize (Json.str "burnEveryTime") =
      .ok WhitelistMintMode.BurnEveryTime ∧
    WhitelistMintMode.deserialize (Json.str "neverBurn") =
      .ok WhitelistMintMode.NeverBurn ∧
    WhitelistMintMode.deserialize (Json.str "BURNEVERYTIME") =
      .error "unknown variant BURNEVERYTIME" := by
  refine ⟨?_, ?_, ?_, ?_, rfl, rfl, ?_, ?_, ?_, rfl, rfl, rfl⟩
  · intro s h
    unfold UploadMethod.from_str
    rw [h]
    rfl
  · intro s h
    unfold UploadMethod.from_str
    rw [h]
    rfl
  · intro s h
    unfold UploadMethod.from_str
    rw [h]
    rfl
  · intro s h1 h2 h3
    unfold UploadMethod.from_str
    rw [if_neg h1, if_neg h2, if_neg h3]
  · intro s h
    unfold WhitelistMintMode.from_str
    rw [h]
    rfl
  · intro s h
    unfold WhitelistMintMode.from_str
    rw [h]
    rfl
  · intro s h1 h2
    unfold WhitelistMintMode.from_str
    rw [if_neg h1, if_neg h2]

/-- Claim C2 witness: concrete letter-case variants and an unmatched token
run through the FromStr parsers. -/
theorem C2_witness :
    UploadMethod.from_str "BUNDLR" = .ok UploadMethod.Bundlr ∧
    WhitelistMintMode.from_str "NeverBURN" = .ok WhitelistMintMode.NeverBurn ∧
    UploadMethod.from_str "dropbox" = .error "Unknown storage: dropbox" :=
  ⟨C2_enum_parsing_amended.2.1 "BUNDLR" rfl,
   C2_enum_parsing_amended.2.2.2.2.2.2.2.1 "NeverBURN" rfl,
   C2_enum_parsing_amended.2.2.2.1 "dropbox" (by decide) (by decide) (by decide)⟩

/-- Claim C3 counterexample: converting the price 0.000000001 (that is,
the binary64 value nearest that decimal, which is what the Rust literal
denotes) yields 1 lamport, not the 0 the claim asserts: one billionth of
a SOL is exactly one lamport, and the binary64 product of the rounded
input with 10^9 is exactly 1. -/
theorem C3_counterexample :
    price_as_lamports (F64.finite (froundQ (1 / 1000000000))) = 1 := by
  with_unfolding_all rfl

/-- Claim C3, corrected: the conversion truncates toward zero the binary64
product fl(amount × UNITS_PER_WHOLE) — for every nonnegative amount whose
rounded product stays below 2^64 the result is the truncation of that
product and never exceeds it — but the multiplication itself rounds to
nearest, so the result can differ from the floor of the exact real
product. toSubunits(1.0) is exactly UNITS_PER_WHOLE, and
toSubunits(0.000000001) is 1, not 0. -/
theorem C3_price_truncation_amended :
    price_as_lamports (F64.finite 1) = LAMPORTS_PER_SOL ∧
    price_as_lamports (F64.finite (froundQ (1 / 1000000000))) = 1 ∧
    (∀ q : ℚ, 0 ≤ q → froundQ (q * (LAMPORTS_PER_SOL : ℚ)) < (2 ^ 64 : ℚ) →
      price_as_lamports (F64.finite q) =
        (qtrunc (froundQ (q * (LAMPORTS_PER_SOL : ℚ)))).toNat ∧
      ((qtrunc (froundQ (q * (LAMPORTS_PER_SOL : ℚ))) : ℚ) ≤
        froundQ (q * (LAMPORTS_PER_SOL : ℚ)))) := by
  refine ⟨by with_unfolding_all rfl, by with_unfolding_all rfl, ?_⟩
  intro q h0 hr
  have hc : (0 : ℚ) ≤ (LAMPORTS_PER_SOL : ℚ) := by norm_num [LAMPORTS_PER_SOL]
  have hr0 : 0 ≤ froundQ (q * (LAMPORTS_PER_SOL : ℚ)) :=
    froundQ_nonneg (mul_nonneg h0 hc)
  have hbig : ¬ ((OVERFLOW_BOUND : ℚ) ≤ |froundQ (q * (LAMPORTS_PER_SOL : ℚ))|) := by
    rw [abs_of_nonneg hr0]
    push_neg
    have hOB : (2 : ℚ) ^ 64 < (OVERFLOW_BOUND : ℚ) := by norm_num [OVERFLOW_BOUND]
    linarith
  have ht0 : 0 ≤ qtrunc (froundQ (q * (LAMPORTS_PER_SOL : ℚ))) := qtrunc_nonneg hr0
  have hr' : froundQ (q * (LAMPORTS_PER_SOL : ℚ)) <
      ((18446744073709551616 : ℕ) : ℚ) := by
    norm_num at hr ⊢
    exact hr
  have htlt := qtrunc_lt hr0 hr'
  push_cast at htlt
  refine ⟨?_, qtrunc_le hr0⟩
  simp only [price_as_lamports, f64MulPos, if_neg hbig, f64_as_u64]
  rw [if_neg (not_lt.mpr ht0)]
  have hmax : (qtrunc (froundQ (q * (LAMPORTS_PER_SOL : ℚ)))).toNat ≤ U64MAX := by
    have hU : U64MAX = 18446744073709551615 := by norm_num [U64MAX]
    omega
  exact Nat.min_eq_left hmax

/-- Claim C3 witness: the corrected truncation rule applied at price 1.0. -/
theorem C3_witness :
    price_as_lamports (F64.finite 1) =
      (qtrunc (froundQ ((1 : ℚ) * (LAMPORTS_PER_SOL : ℚ)))).toNat :=
  (C3_price_truncation_amended.2.2 1 zero_le_one (by with_unfolding_all decide)).1

/-- Claim C4 confirmed: the go-live date is kept as a raw string — the
aggregate configuration deserializes successfully for every goLiveDate
string whatsoever, retaining it unchanged — and an invalid format only
becomes an error when the timestamp is requested through
go_live_date_as_timestamp. -/
theorem C4_go_live_date_lazy :
    (∀ s : String, ∃ cfg : ConfigData,
      ConfigData.deserialize (Json.obj
        [("price", Json.num 1), ("number", Json.num 10),
         ("solTreasuryAccount", Json.str "11111111111111111111111111111111"),
         ("splTokenAccount", Json.null), ("splToken", Json.null),
         ("goLiveDate", Json.str s), ("uploadMethod", Json.str "bundlr"),
         ("retainAuthority", Json.bool true), ("isMutable", Json.bool true)]) =
        .ok cfg ∧ cfg.go_live_date = s) ∧
    exceptIsOk (go_live_date_as_timestamp "not-a-timestamp") = false :=
  ⟨fun _ => ⟨_, rfl, rfl⟩, rfl⟩

/-- Claim C5 confirmed: the go-live translation performs a strict RFC 3339
parse to signed epoch seconds — the fully specified UTC instant parses to
1640995200, while a bare date without time and zone, or a date-time
missing its timezone designator, is a hard error. -/
theorem C5_rfc3339_strict :
    go_live_date_as_timestamp "2022-01-01T00:00:00Z" = .ok 1640995200 ∧
    go_live_date_as_timestamp "2022-01-01" =
      .error "input is not a valid RFC 3339 date-time" ∧
    go_live_date_as_timestamp "2022-01-01T00:00:00" =
      .error "input is not a valid RFC 3339 date-time" := ⟨rfl, rfl, rfl⟩

/-- Claim C6 confirmed: a present discount price is converted by exactly
the price rule (the two source functions agree pointwise), absence maps to
absence, the whitelist translation routes its discount field through this
conversion, and the concrete discount 0.5 translates to 500000000
lamports. -/
theorem C6_discount_price_same_rule :
    (∀ d : F64, discount_price_to_lamports (some d) =
      some (price_as_lamports d)) ∧
    discount_price_to_lamports none = none ∧
    discount_price_to_lamports (some (F64.finite (1 / 2))) = some 500000000 ∧
    (∀ w : WhitelistMintSettings,
      (WhitelistMintSettings.into_candy_format w).discount_price =
        discount_price_to_lamports w.discount_price) :=
  ⟨fun _ => rfl, rfl, by with_unfolding_all rfl, fun _ => rfl⟩

/-- Claim C7 confirmed: the schema bridge is total and variant-exact on
the end-settings and whitelist-mode enums — Date maps to Date, Amount to
Amount, BurnEveryTime to BurnEveryTime, NeverBurn to NeverBurn — and the
end-condition threshold is copied verbatim whatever the tag. -/
theorem C7_schema_bridge_variant_exact :
    (∀ n : ℕ,
      EndSettings.into_candy_format ⟨EndSettingType.Date, n⟩ =
        ⟨CandyEndSettingType.Date, n⟩ ∧
      EndSettings.into_candy_format ⟨EndSettingType.Amount, n⟩ =
        ⟨CandyEndSettingType.Amount, n⟩) ∧
    (∀ es : EndSettings,
      (EndSettings.into_candy_format es).number = es.number) ∧
    WhitelistMintMode.into_candy_format WhitelistMintMode.BurnEveryTime =
      CandyWhitelistMintMode.BurnEveryTime ∧
    WhitelistMintMode.into_candy_format WhitelistMintMode.NeverBurn =
      CandyWhitelistMintMode.NeverBurn :=
  ⟨fun _ => ⟨rfl, rfl⟩, fun _ => rfl, rfl, rfl⟩

/-- Claim C8 confirmed: every translation function of the bridge is a pure
function of the configuration value alone — in this embedding, exactly the
content of taking the receiver by shared reference — so repeated
translation of the same configuration yields identical external values and
leaves the configuration unchanged. -/
theorem C8_translation_deterministic :
    (∀ g : GatekeeperConfig,
      GatekeeperConfig.into_candy_format g =
        GatekeeperConfig.into_candy_format g) ∧
    (∀ h : HiddenSettings,
      HiddenSettings.into_candy_format h = HiddenSettings.into_candy_format h) ∧
    (∀ e : EndSettings,
      EndSettings.into_candy_format e = EndSettings.into_candy_format e) ∧
    (∀ w : WhitelistMintSettings,
      WhitelistMintSettings.into_candy_format w =
        WhitelistMintSettings.into_candy_format w) ∧
    (∀ m : WhitelistMintMode,
      WhitelistMintMode.into_candy_format m =
        WhitelistMintMode.into_candy_format m) :=
  ⟨fun _ => rfl, fun _ => rfl, fun _ => rfl, fun _ => rfl, fun _ => rfl⟩

/-- Claim C9 confirmed: the price conversion is total — its result always
fits in u64, NaN casts to 0, every strictly negative price casts to 0, a
product at or above 2^64 saturates to u64::MAX — and the discount-price
conversion is the same function under Option.map. -/
theorem C9_price_cast_total_saturating :
    (∀ x : F64, price_as_lamports x ≤ U64MAX) ∧
    price_as_lamports F64.nan = 0 ∧
    (∀ q : ℚ, q < 0 → price_as_lamports (F64.finite q) = 0) ∧
    (∀ q : ℚ, (2 ^ 64 : ℚ) ≤ froundQ (q * (LAMPORTS_PER_SOL : ℚ)) →
      price_as_lamports (F64.finite q) = U64MAX) ∧
    (∀ d : Option F64, discount_price_to_lamports d =
      Option.map price_as_lamports d) := by
  refine ⟨fun x => f64_as_u64_le _, rfl, ?_, ?_, fun d => by cases d <;> rfl⟩
  · intro q hq
    have hc : (0 : ℚ) < (LAMPORTS_PER_SOL : ℚ) := by norm_num [LAMPORTS_PER_SOL]
    have hprod : q * (LAMPORTS_PER_SOL : ℚ) ≤ 0 :=
      le_of_lt (mul_neg_of_neg_of_pos hq hc)
    have hr0 : froundQ (q * (LAMPORTS_PER_SOL : ℚ)) ≤ 0 := froundQ_nonpos hprod
    simp only [price_as_lamports, f64MulPos]
    split
    · rename_i hov
      have hOB : (0 : ℚ) < (OVERFLOW_BOUND : ℚ) := by norm_num [OVERFLOW_BOUND]
      have hrneg : froundQ (q * (LAMPORTS_PER_SOL : ℚ)) < 0 := by
        rcases lt_or_eq_of_le hr0 with h | h
        · exact h
        · exfalso
          rw [h] at hov
          simp at hov
          norm_num [OVERFLOW_BOUND] at hov
      rw [decide_eq_true hrneg]
      rfl
    · have ht : qtrunc (froundQ (q * (LAMPORTS_PER_SOL : ℚ))) ≤ 0 :=
        qtrunc_nonpos hr0
      simp only [f64_as_u64]
      split
      · rfl
      · rename_i hnlt
        push_neg at hnlt
        have hz : qtrunc (froundQ (q * (LAMPORTS_PER_SOL : ℚ))) = 0 :=
          le_antisymm ht hnlt
        rw [hz]
        simp
  · intro q hsat
    have h64 : (0 : ℚ) ≤ (2 ^ 64 : ℚ) := by positivity
    have hr0 : (0 : ℚ) ≤ froundQ (q * (LAMPORTS_PER_SOL : ℚ)) :=
      le_trans h64 hsat
    have hsatn : ((18446744073709551616 : ℕ) : ℚ) ≤
        froundQ (q * (LAMPORTS_PER_SOL : ℚ)) := by
      norm_num at hsat ⊢
      exact hsat
    simp only [price_as_lamports, f64MulPos]
    split
    · rw [decide_eq_false (not_lt.mpr hr0)]
      rfl
    · have ht := qtrunc_ge hsatn
      push_cast at ht
      simp only [f64_as_u64]
      split
      · rename_i hlt
        exfalso
        omega
      · have h1 : U64MAX ≤ (qtrunc (froundQ (q * (LAMPORTS_PER_SOL : ℚ)))).toNat := by
          have hU : U64MAX = 18446744073709551615 := by norm_num [U64MAX]
          omega
        exact Nat.min_eq_right h1

/-- Claim C9 witness: a negative price casts to 0, and a price of 2^64
whole units saturates the cast to u64::MAX. -/
theorem C9_witness :
    price_as_lamports (F64.finite (-1)) = 0 ∧
    price_as_lamports (F64.finite (2 ^ 64)) = U64MAX :=
  ⟨C9_price_cast_total_saturating.2.2.1 (-1) neg_one_lt_zero,
   C9_price_cast_total_saturating.2.2.2.1 (2 ^ 64) (by with_unfolding_all decide)⟩

/-- Claim C10 confirmed: the nested leaf objects keep their Rust
snake_case field names — GatekeeperConfig requires gatekeeper_network and
expire_on_use, EndSettings requires end_setting_type and number — and a
camelCase spelling such as expireOnUse is ignored as an unknown key,
making construction fail with a missing-required-field error. -/
theorem C10_nested_snake_case_keys :
    GatekeeperConfig.deserialize (Json.obj
      [("gatekeeper_network", Json.arr (List.replicate 32 (Json.num 0))),
       ("expire_on_use", Json.bool true)]) =
      .ok ⟨⟨List.replicate 32 0⟩, true⟩ ∧
    GatekeeperConfig.deserialize (Json.obj
      [("gatekeeper_network", Json.arr (List.replicate 32 (Json.num 0))),
       ("expireOnUse", Json.bool true)]) =
      .error "missing field expire_on_use" ∧
    EndSettings.deserialize (Json.obj
      [("end_setting_type", Json.str "Amount"), ("number", Json.num 333)]) =
      .ok ⟨EndSettingType.Amount, 333⟩ ∧
    EndSettings.deserialize (Json.obj
      [("endSettingType", Json.str "Amount"), ("number", Json.num 333)]) =
      .error "missing field end_setting_type" := by
  refine ⟨?_, rfl, ?_, rfl⟩
  · with_unfolding_all rfl
  · with_unfolding_all rfl

end Sugar
